import Mathlib

/-!
Verification of the Focus board-game engine (FocusGame.py, Board.py, Player.py).

The Python classes are shallowly embedded as follows.

* `Player` mirrors the class in Player.py.  The two counters are `Nat`:
  both start at 0 and the only decrement (`play_from_reserve`) happens at a
  call site that has just checked the reserve is nonzero, so the Python
  integers never go negative.
* The board (`Board._board_layout`, a 6x6 list of lists) is a function
  `Fin 6 × Fin 6 → List String`; a stack lists pieces bottom to top, like
  the Python lists.  Coordinates arriving through the API are `Int × Int`
  and are converted with `fin6` only after the code has checked that they
  lie in [0, 5], exactly as the Python indexes `_board_layout[r][c]` only
  with validated coordinates.
* A Python `KeyError` escaping a method (the dict access
  `self._players[player_name]`) is modelled by the method returning `none`;
  a normal return value `v` is `some v`.  The Python sentinel `False`
  returned by `return_stack` / `show_reserve` / `show_captured` for bad
  input is modelled by `none` of the corresponding query, and the `False`
  returned by `move_piece` / `reserved_move` for a rejected move is the
  ordinary value `MoveResult.rejected` (those methods never raise there).
* Python list slices are reproduced by `pySliceFrom` (`l[k:]`) and
  `pySliceTo` (`l[:k]`), including their behaviour on negative indices and
  on `-0 = 0` (so `l[-0:]` is all of `l`, which matters for
  `multiple_move` with `number_of_pieces = 0`).
* In `single_move` / `multiple_move` / `reserved_move` the Python code
  mutates an aliased stack list in place and then writes stacks back with
  `modify_tile(from, ...)` followed by `modify_tile(to, ...)`.  All reads
  happen before the in-place mutation, and the final cell contents are
  exactly the values written by the trailing `modify_tile` calls (the
  second write wins when both target the same tile), so the value-semantic
  translation below, which writes `from` then `to`, agrees with the Python
  also when `from = to` (reachable with `number_of_pieces = 0`).
-/

/-- Mirrors class `Player` (Player.py): name, color and the two counters. -/
structure Player where
  name : String
  color : String
  reserved : Nat
  captured : Nat
deriving DecidableEq

/-- Outcome of `move_piece` / `reserved_move`: Python returns `False` for a
rejected move (`rejected`), `'successfully moved'` or `True` for a plain
success (`moved`), and the string `f'{name} wins'` (`wins name`). -/
inductive MoveResult where
  | rejected
  | moved
  | wins (name : String)
deriving DecidableEq

/-- Converts an `Int` coordinate to a board index.  Every call site first
checks the coordinate is in [0, 5], where this is the identity. -/
def fin6 (x : Int) : Fin 6 := ⟨x.toNat % 6, Nat.mod_lt _ (by decide)⟩

/-- Python slice `l[k:]` for an arbitrary integer `k` (negative `k` counts
from the end; note `-0 = 0`, so `l[-0:]` is all of `l`). -/
def pySliceFrom (l : List String) (k : Int) : List String :=
  if k < 0 then l.drop (l.length - k.natAbs) else l.drop k.toNat

/-- Python slice `l[:k]` (equivalently `l[0:k]`) for an arbitrary integer
`k`. -/
def pySliceTo (l : List String) (k : Int) : List String :=
  if k < 0 then l.take (l.length - k.natAbs) else l.take k.toNat

/-- Game state: the attributes of a `FocusGame` instance (FocusGame.py).
The `_players` dict is not a separate field; it is recovered by
`lookupPlayer` / `setPlayer` from the two player fields and their
(immutable) names, matching `{player1_name: self._player1, player2_name:
self._player2}`. -/
structure FocusGame where
  board : Fin 6 × Fin 6 → List String
  currentTurn : String
  player1 : Player
  player2 : Player
  gameState : String

/-- Mirrors `Board.__init__`: even rows are
`[[p1], [p1], [p2], [p2], [p1], [p1]]`, odd rows the same with the colors
swapped. -/
def initBoard (p1Color p2Color : String) : Fin 6 × Fin 6 → List String :=
  fun rc =>
    (if rc.1.val % 2 = 0 then
      [[p1Color], [p1Color], [p2Color], [p2Color], [p1Color], [p1Color]]
     else
      [[p2Color], [p2Color], [p1Color], [p1Color], [p2Color], [p2Color]]).getD rc.2.val []

/-- Mirrors `FocusGame.__init__` for player tuples `(name, color)`. -/
def mkGame (player1 player2 : String × String) : FocusGame :=
  { board := initBoard player1.2 player2.2
    currentTurn := player1.1
    player1 := { name := player1.1, color := player1.2, reserved := 0, captured := 0 }
    player2 := { name := player2.1, color := player2.2, reserved := 0, captured := 0 }
    gameState := "IN PROGRESS" }

/-- The dict access `self._players[player_name]`; `none` is a `KeyError`.
When the two names coincide the dict literal keeps the later binding
(player 2), hence player 2 is tested first. -/
def lookupPlayer (s : FocusGame) (playerName : String) : Option Player :=
  if playerName = s.player2.name then some s.player2
  else if playerName = s.player1.name then some s.player1
  else none

/-- Writing back a mutated player object obtained from the `_players`
dict: the dict entry for `playerName` aliases the corresponding attribute,
player 2 first for a duplicated name (see `lookupPlayer`). -/
def setPlayer (s : FocusGame) (playerName : String) (p : Player) : FocusGame :=
  if playerName = s.player2.name then { s with player2 := p }
  else if playerName = s.player1.name then { s with player1 := p }
  else s

/-- Direct board access `self._board_layout[r][c]`; used only with
coordinates already validated to lie in [0, 5]. -/
def stackAt (s : FocusGame) (t : Int × Int) : List String :=
  s.board (fin6 t.1, fin6 t.2)

/-- Mirrors `Board.return_stack`: `False` (here `none`) when a coordinate
is out of bounds, otherwise the stack. -/
def returnStack (s : FocusGame) (t : Int × Int) : Option (List String) :=
  if 5 < t.1 ∨ t.1 < 0 then none
  else if 5 < t.2 ∨ t.2 < 0 then none
  else some (stackAt s t)

/-- Mirrors `FocusGame.show_pieces` (delegates to `return_stack`). -/
def showPieces (s : FocusGame) (t : Int × Int) : Option (List String) :=
  returnStack s t

/-- The membership test `coords in (0, 1, 2, 3, 4, 5)` from
`basic_move_validation` / `reserved_move`. -/
def coordOnBoard (x : Int) : Bool :=
  decide (0 ≤ x ∧ x ≤ 5)

/-- Mirrors `FocusGame.determine_game_state`. -/
def determineGameState (s : FocusGame) : String :=
  if 6 ≤ s.player1.captured then "PLAYER 1 WINS"
  else if 6 ≤ s.player2.captured then "PLAYER 2 WINS"
  else "IN PROGRESS"

/-- Mirrors `FocusGame.basic_move_validation`, check for check and in
order.  The last guard reproduces the source line
`if to_coordinates[0] != from_coordinates[0] and to_coordinates[1] !=
to_coordinates[1]` verbatim: its second conjunct compares
`to_coordinates[1]` with itself, so the guard never fires. -/
def basicMoveValidation (s : FocusGame) (playerName : String)
    (fromC toC : Int × Int) (n : Int) : Option Bool :=
  if ¬ (coordOnBoard fromC.1 && coordOnBoard fromC.2
        && coordOnBoard toC.1 && coordOnBoard toC.2) then some false
  else if s.gameState ≠ "IN PROGRESS" then some false
  else if playerName ≠ s.currentTurn then some false
  else if n = 1 ∧ (stackAt s fromC).length = 0 then some false
  else if (stackAt s fromC).length = 0 then some false
  else
    match lookupPlayer s playerName with
    | none => none
    | some pl =>
      if ¬ ((stackAt s fromC).getLast? = some pl.color) then some false
      else if n < 0 ∨ ((stackAt s fromC).length : Int) < n then some false
      else if (((toC.1 - fromC.1).natAbs : Int) ≠ n
               ∧ ((toC.2 - fromC.2).natAbs : Int) ≠ n) then some false
      else if toC.1 ≠ fromC.1 ∧ toC.2 ≠ toC.2 then some false
      else some true

/-- Mirrors `FocusGame.resolve_stacks`: the while loop walks the bottom
`len - 5` pieces in order, crediting the mover's reserve for own-colored
pieces and the capture count otherwise; the resulting stack is the slice
`input_stack[pieces_to_resolve_cnt:]`. -/
def resolveStacks (inputStack : List String) (pl : Player) : List String × Player :=
  let cnt : Int := (inputStack.length : Int) - 5
  let pl2 := (inputStack.take cnt.toNat).foldl
    (fun q piece =>
      if piece = q.color then { q with reserved := q.reserved + 1 }
      else { q with captured := q.captured + 1 }) pl
  (pySliceFrom inputStack cnt, pl2)

/-- Mirrors `Board.modify_tile` (no bounds validation, as in the source;
only called with validated coordinates). -/
def modifyTile (s : FocusGame) (t : Int × Int) (newStack : List String) : FocusGame :=
  { s with board := Function.update s.board (fin6 t.1, fin6 t.2) newStack }

/-- Mirrors `FocusGame.single_move`: pop the top of the source stack,
append the mover's color to the destination stack, resolve if the result
exceeds 5, then write both tiles back (source first). -/
def singleMove (s : FocusGame) (playerName : String) (fromC toC : Int × Int) :
    Option FocusGame :=
  match lookupPlayer s playerName with
  | none => none
  | some pl =>
    let oldStack := pySliceTo (stackAt s fromC) (((stackAt s fromC).length : Int) - 1)
    let newStack := stackAt s toC ++ [pl.color]
    if 5 < newStack.length then
      let r := resolveStacks newStack pl
      some (modifyTile (modifyTile (setPlayer s playerName r.2) fromC oldStack) toC r.1)
    else
      some (modifyTile (modifyTile s fromC oldStack) toC newStack)

/-- Mirrors `FocusGame.multiple_move`: the source keeps
`old_stack[0:len - n]`, the slice `[-n:]` is appended to the destination,
the result is resolved when it exceeds 5, then both tiles are written back
(source first; when `fromC = toC` the destination write wins, as in the
Python where both names alias one list). -/
def multipleMove (s : FocusGame) (playerName : String) (fromC toC : Int × Int)
    (n : Int) : Option FocusGame :=
  let oldStack := pySliceTo (stackAt s fromC) (((stackAt s fromC).length : Int) - n)
  let piecesToMove := pySliceFrom (stackAt s fromC) (-n)
  let newStack := stackAt s toC ++ piecesToMove
  if 5 < newStack.length then
    match lookupPlayer s playerName with
    | none => none
    | some pl =>
      let r := resolveStacks newStack pl
      some (modifyTile (modifyTile (setPlayer s playerName r.2) fromC oldStack) toC r.1)
  else
    some (modifyTile (modifyTile s fromC oldStack) toC newStack)

/-- The turn handoff at the end of `move_piece` / `reserved_move`. -/
def advanceTurn (s : FocusGame) : FocusGame :=
  if s.currentTurn = s.player1.name then { s with currentTurn := s.player2.name }
  else { s with currentTurn := s.player1.name }

/-- Mirrors `FocusGame.move_piece`: validate, dispatch on
`number_of_pieces == 1`, advance the turn, recompute the game state, and
report `f'{self._current_player_turn} wins'` when the new state is a win. -/
def movePiece (s : FocusGame) (playerName : String) (fromC toC : Int × Int)
    (n : Int) : Option (MoveResult × FocusGame) :=
  match basicMoveValidation s playerName fromC toC n with
  | none => none
  | some false => some (MoveResult.rejected, s)
  | some true =>
    match (if n = 1 then singleMove s playerName fromC toC
           else multipleMove s playerName fromC toC n) with
    | none => none
    | some s1 =>
      let s2 := advanceTurn s1
      let s3 := { s2 with gameState := determineGameState s2 }
      if s3.gameState = "PLAYER 1 WINS" ∨ s3.gameState = "PLAYER 2 WINS"
      then some (MoveResult.wins s2.currentTurn, s3)
      else some (MoveResult.moved, s3)

/-- Mirrors `FocusGame.show_reserve` (`False`, here `none`, for an unknown
name). -/
def showReserve (s : FocusGame) (playerName : String) : Option Nat :=
  if s.player1.name = playerName then some s.player1.reserved
  else if s.player2.name = playerName then some s.player2.reserved
  else none

/-- Mirrors `FocusGame.show_captured`. -/
def showCaptured (s : FocusGame) (playerName : String) : Option Nat :=
  if s.player1.name = playerName then some s.player1.captured
  else if s.player2.name = playerName then some s.player2.captured
  else none

/-- Mirrors `FocusGame.reserved_move`.  The very first statement of the
Python method is the dict access `self._players[player_name]`, so an
unknown name raises (`none`) before any validation; note also that no
check of `self._game_state` is performed anywhere in this method. -/
def reservedMove (s : FocusGame) (playerName : String) (toC : Int × Int) :
    Option (MoveResult × FocusGame) :=
  match lookupPlayer s playerName with
  | none => none
  | some pl =>
    if pl.reserved = 0 then some (MoveResult.rejected, s)
    else if playerName ≠ s.currentTurn then some (MoveResult.rejected, s)
    else if ¬ (coordOnBoard toC.1 && coordOnBoard toC.2) then some (MoveResult.rejected, s)
    else
      let pl1 : Player := { pl with reserved := pl.reserved - 1 }
      let newStack := stackAt s toC ++ [pl1.color]
      let r := if 5 < newStack.length then resolveStacks newStack pl1 else (newStack, pl1)
      let s1 := modifyTile (setPlayer s playerName r.2) toC r.1
      let s2 := advanceTurn s1
      let s3 := { s2 with gameState := determineGameState s2 }
      if s3.gameState = "PLAYER 1 WINS" ∨ s3.gameState = "PLAYER 2 WINS"
      then some (MoveResult.wins s2.currentTurn, s3)
      else some (MoveResult.moved, s3)

/-- Arguments of one `move_piece` call. -/
structure MoveArgs where
  player : String
  fromC : Int × Int
  toC : Int × Int
  n : Int

/-- Runs a list of `move_piece` calls in order (propagating an
exception as `none`). -/
def applyMoves : FocusGame → List MoveArgs → Option FocusGame
  | s, [] => some s
  | s, m :: ms =>
    match movePiece s m.player m.fromC m.toC m.n with
    | none => none
    | some r => applyMoves r.2 ms

/-- Total number of physical pieces: all 36 stack sizes plus both
reserves plus both capture counts. -/
def totalPieces (s : FocusGame) : Nat :=
  (∑ c : Fin 6 × Fin 6, (s.board c).length) + s.player1.reserved + s.player1.captured
    + s.player2.reserved + s.player2.captured

/-- Every board cell holds at most 5 pieces. -/
def StacksLE5 (s : FocusGame) : Prop :=
  ∀ c : Fin 6 × Fin 6, (s.board c).length ≤ 5

/-- The turn holder is one of the two players (true in every state the
constructor and the moves produce; without it the dict lookup of the turn
holder could raise). -/
def TurnValid (s : FocusGame) : Prop :=
  s.currentTurn = s.player1.name ∨ s.currentTurn = s.player2.name

/-- Modelled from the spec: the initial-layout pattern of section 8 of the
spec — colors in pairs of two columns, alternating along the row, with the
pairing flipped on odd rows. -/
def specInitialColor (colorA colorB : String) (r c : Fin 6) : String :=
  if (c.val / 2 + r.val) % 2 = 0 then colorA else colorB

/-- A move list in which every move asks for at least one piece and never
lands more pieces on a destination than fit in a stack of 5 (so
`resolve_stacks` is never triggered). -/
def ConservingSeq : FocusGame → List MoveArgs → Prop
  | _, [] => True
  | s, m :: ms =>
    1 ≤ m.n ∧ (stackAt s m.toC).length + m.n.toNat ≤ 5 ∧
      ∀ r, movePiece s m.player m.fromC m.toC m.n = some r → ConservingSeq r.2 ms

def nameA : String := "A"
def nameB : String := "B"
def nameC : String := "Charlie"
def colR : String := "R"
def colG : String := "G"
def inProgressMsg : String := "IN PROGRESS"
def p1WinsMsg : String := "PLAYER 1 WINS"

/-- A concrete game: players ("A", "R") and ("B", "G"). -/
def g0c : FocusGame := mkGame (nameA, colR) (nameB, colG)

/-- A concrete game whose status is a win state. -/
def gWon : FocusGame := { g0c with gameState := p1WinsMsg }

/-- A sequence of nine moves, each accepted by `move_piece`, after which
player 1 has captured six pieces: one ordinary single move, then repeated
`number_of_pieces = 0` moves (accepted because `basic_move_validation`
only rejects a negative count and `|delta| = 0` satisfies the geometry
disjunction), which duplicate a stack onto itself and feed
`resolve_stacks`. -/
def msWin : List MoveArgs :=
  [ ⟨nameA, (0, 0), (1, 0), 1⟩,
    ⟨nameB, (0, 2), (0, 2), 0⟩,
    ⟨nameA, (1, 0), (1, 0), 0⟩,
    ⟨nameB, (0, 2), (0, 2), 0⟩,
    ⟨nameA, (1, 0), (1, 0), 0⟩,
    ⟨nameB, (0, 2), (0, 2), 0⟩,
    ⟨nameA, (1, 0), (1, 0), 0⟩,
    ⟨nameB, (0, 2), (0, 2), 0⟩,
    ⟨nameA, (1, 0), (1, 0), 0⟩ ]

/-- A single ordinary accepted move used as a concrete conserving trace. -/
def msOneMove : List MoveArgs := [⟨nameA, (0, 0), (1, 0), 1⟩]

/-- The six-piece stack [A, B, A, A, B, A] (bottom to top) of the spec's
overflow example, with A = "R" and B = "G". -/
def stackC4 : List String := [colR, colG, colR, colR, colG, colR]

/-- Player 1 of `g0c` in its initial state. -/
def plA : Player := ⟨nameA, colR, 0, 0⟩

/-- C8 (code_bug): calling `reserved_move` with a player name that is not
one of the two players executes `self._players[player_name]` before any
validation and raises `KeyError` (modelled by `none`) instead of returning
a rejection value, contradicting the method's own docstring ("Returns a
message if move is not valid") and the spec's no-exceptions contract. -/
theorem c8_reserved_move_unknown_player_raises :
    reservedMove g0c nameC (0, 0) = none := rfl

/-- C1, counterexample: a reachable state whose status is a win state is
not terminal.  After the nine accepted moves of `msWin` the status is
PLAYER 1 WINS, yet a subsequent `reserved_move` by the turn holder is
accepted (it even reports a winner) and mutates the board cell (5, 5) from
one piece to two and the mover's reserve from 8 down to 7. -/
theorem c1_win_state_not_terminal_counterexample :
    (applyMoves g0c msWin).bind (fun g =>
      (reservedMove g nameB (5, 5)).map (fun p =>
        (g.gameState, stackAt g (5, 5), p.1, stackAt p.2 (5, 5), showReserve p.2 nameB)))
      = some (p1WinsMsg, [colG], MoveResult.wins nameA, [colG, colG], some 7) := by
  decide

/-- C2, counterexample: a `move_piece` request with `number_of_pieces = 0`
is not rejected.  `basic_move_validation` only rejects a negative count
(`number_of_pieces < 0`), and `|delta| = 0` satisfies the geometry
disjunction, so the move is accepted and mutates the destination: cell
(0, 1) grows from one piece to two. -/
theorem c2_zero_pieces_accepted_counterexample :
    (movePiece g0c nameA (0, 0) (0, 1) 0).map (fun p => (p.1, stackAt p.2 (0, 1)))
      = some (MoveResult.moved, [colR, colR]) := by
  decide

/-- C3, counterexample: a sequence consisting of one accepted move in
which no destination stack ever exceeds 5 pieces (the destination ends at
2 pieces) after which the total piece count is 37, not 36: the accepted
`number_of_pieces = 0` move copies the whole source stack onto the
destination without removing anything (`old_stack[0:len-0]` keeps the
source, `[-0:]` copies all of it). -/
theorem c3_conservation_violated_counterexample :
    (movePiece g0c nameA (0, 0) (0, 1) 0).map
        (fun p => (p.1, totalPieces p.2, (stackAt p.2 (0, 1)).length))
      = some (MoveResult.moved, 37, 2) := by
  decide

/-- C9 (confirmed): in a fresh game every cell holds exactly one piece,
whose color follows the pairs-of-two-columns pattern (flipped on odd
rows); in particular cells (0,0), (0,2), (1,0), (1,2) hold [A], [B], [B],
[A] respectively for player colors A and B. -/
theorem c9_initial_layout (n1 n2 colorA colorB : String) :
    (∀ r c : Fin 6,
        showPieces (mkGame (n1, colorA) (n2, colorB)) ((r.val : Int), (c.val : Int))
          = some [specInitialColor colorA colorB r c])
      ∧ showPieces (mkGame (n1, colorA) (n2, colorB)) (0, 0) = some [colorA]
      ∧ showPieces (mkGame (n1, colorA) (n2, colorB)) (0, 2) = some [colorB]
      ∧ showPieces (mkGame (n1, colorA) (n2, colorB)) (1, 0) = some [colorB]
      ∧ showPieces (mkGame (n1, colorA) (n2, colorB)) (1, 2) = some [colorA] := by
  refine ⟨fun r c => ?_, rfl, rfl, rfl, rfl⟩
  fin_cases r <;> fin_cases c <;> rfl

/-- The loop of `resolve_stacks` only ever increments one of the two
counters, so the processed player's name and color are unchanged and the
counters grow by the number of own-colored, respectively other-colored,
pieces seen. -/
theorem resolveLoop_spec (l : List String) (p : Player) :
    l.foldl
      (fun q piece =>
        if piece = q.color then { q with reserved := q.reserved + 1 }
        else { q with captured := q.captured + 1 }) p
      = { p with reserved := p.reserved + l.countP (fun x => x == p.color),
                 captured := p.captured + l.countP (fun x => !(x == p.color)) } := by
  induction l generalizing p with
  | nil => simp
  | cons a t ih =>
    obtain ⟨nm, col, res, cap⟩ := p
    by_cases ha : a = col <;> simp [ha, ih, Player.mk.injEq] <;> omega

/-- C4 (confirmed): whenever `resolve_stacks` is given a stack of more
than 5 pieces (which is exactly when the moves invoke it), with
`k = size - 5` it credits the mover's reserve once per own-colored piece
among the bottom `k` and the mover's capture count once per other-colored
piece there, and returns the top 5 pieces of the stack in their original
order (the stack with its bottom `k` elements removed); the returned
stack has exactly 5 pieces. -/
theorem c4_resolve_stacks_overflow (inputStack : List String) (pl : Player)
    (h : 5 < inputStack.length) :
    resolveStacks inputStack pl
      = (inputStack.drop (inputStack.length - 5),
         { pl with
            reserved := pl.reserved
              + (inputStack.take (inputStack.length - 5)).countP (fun x => x == pl.color),
            captured := pl.captured
              + (inputStack.take (inputStack.length - 5)).countP (fun x => !(x == pl.color)) })
      ∧ (resolveStacks inputStack pl).1.length = 5 := by
  have hk : ((inputStack.length : Int) - 5).toNat = inputStack.length - 5 := by omega
  have hk0 : ¬ ((inputStack.length : Int) - 5 < 0) := by omega
  have heq : resolveStacks inputStack pl
      = (inputStack.drop (inputStack.length - 5),
         { pl with
            reserved := pl.reserved
              + (inputStack.take (inputStack.length - 5)).countP (fun x => x == pl.color),
            captured := pl.captured
              + (inputStack.take (inputStack.length - 5)).countP (fun x => !(x == pl.color)) }) := by
    simp only [resolveStacks, pySliceFrom, hk, if_neg hk0]
    rw [resolveLoop_spec]
  refine ⟨heq, ?_⟩
  rw [heq]
  simp only [List.length_drop]
  omega

/-- C4, witness: the spec's example: resolving the six-piece stack
[A, B, A, A, B, A] for mover color A leaves the top five [B, A, A, B, A]
and credits one reserve (the bottom piece is the mover's own color). -/
theorem c4_resolve_stacks_overflow_witness :
    resolveStacks stackC4 plA = ([colG, colR, colR, colG, colR], ⟨nameA, colR, 1, 0⟩) :=
  ((c4_resolve_stacks_overflow stackC4 plA (by decide)).1).trans (by decide)

/-- In a state whose turn holder is one of the two players, the dict
lookup of the turn holder succeeds. -/
theorem lookupPlayer_turnValid (s : FocusGame) (h : TurnValid s) :
    ∃ pl, lookupPlayer s s.currentTurn = some pl := by
  unfold lookupPlayer
  rcases h with h | h
  · by_cases h2 : s.currentTurn = s.player2.name
    · rw [if_pos h2]; exact ⟨s.player2, rfl⟩
    · rw [if_neg h2, if_pos h]; exact ⟨s.player1, rfl⟩
  · rw [if_pos h]; exact ⟨s.player2, rfl⟩

/-- C1 (corrected), amended: once the game status is a win state,
`move_piece` is indeed terminal — every call is rejected with no state
change (the status guard is the second validation) — but `reserved_move`
performs no game-status check at all, so a reserve play by the turn
holder with a nonzero reserve is still accepted and mutates the board,
the reserve count and the turn (see the counterexample). -/
theorem c1_move_piece_rejected_after_win (s : FocusGame) (playerName : String)
    (fromC toC : Int × Int) (n : Int) (h : s.gameState ≠ inProgressMsg) :
    movePiece s playerName fromC toC n = some (MoveResult.rejected, s) := by
  have hv : basicMoveValidation s playerName fromC toC n = some false := by
    unfold basicMoveValidation
    split
    · rfl
    · have h2 : s.gameState ≠ "IN PROGRESS" := h
      rw [if_pos h2]
  simp only [movePiece, hv]

/-- C1, witness: in a concrete won game, a `move_piece` request that
would otherwise be perfectly legal is rejected and the state returned
unchanged. -/
theorem c1_move_piece_rejected_after_win_witness :
    movePiece gWon nameA (0, 0) (1, 0) 1 = some (MoveResult.rejected, gWon) :=
  c1_move_piece_rejected_after_win gWon nameA (0, 0) (1, 0) 1 (by decide)

/-- C2 (corrected), amended: `basic_move_validation` rejects a negative
piece count and a count larger than the source stack, and a rejected
`move_piece` call returns the state unchanged; but the lower bound of the
accepted range is 0, not 1 — a `number_of_pieces = 0` request passes the
count check and is accepted whenever the rest of validation passes (the
geometry disjunction holds with `|delta| = 0`), mutating state (see the
counterexample). -/
theorem c2_negative_or_oversized_count_rejected (s : FocusGame) (playerName : String)
    (fromC toC : Int × Int) (n : Int) (hturn : TurnValid s)
    (hn : n < 0 ∨ ((stackAt s fromC).length : Int) < n) :
    movePiece s playerName fromC toC n = some (MoveResult.rejected, s) := by
  have hv : basicMoveValidation s playerName fromC toC n = some false := by
    unfold basicMoveValidation
    split
    · rfl
    split
    · rfl
    split
    · rfl
    split
    · rfl
    split
    · rfl
    rename_i h1 h2 h3 h4 h5
    have hpn : playerName = s.currentTurn := not_not.mp h3
    obtain ⟨pl, hl⟩ := lookupPlayer_turnValid s hturn
    rw [hpn, hl]
    exact ite_self (some false)
  simp only [movePiece, hv]

/-- C2, witness: a request to move a negative number of pieces is
rejected with no state change. -/
theorem c2_negative_or_oversized_count_rejected_witness :
    movePiece g0c nameA (0, 0) (0, 1) (-1) = some (MoveResult.rejected, g0c) :=
  c2_negative_or_oversized_count_rejected g0c nameA (0, 0) (0, 1) (-1) (Or.inl rfl) (by decide)

/-- C6 (confirmed): every rejected `move_piece` call returns the state
exactly unchanged — validation only reads, and the rejecting return
happens before any mutation, whatever validation rule failed. -/
theorem c6_rejected_move_leaves_state_unchanged (s : FocusGame) (playerName : String)
    (fromC toC : Int × Int) (n : Int)
    (h : (movePiece s playerName fromC toC n).map Prod.fst = some MoveResult.rejected) :
    movePiece s playerName fromC toC n = some (MoveResult.rejected, s) := by
  unfold movePiece at h ⊢
  cases hv : basicMoveValidation s playerName fromC toC n with
  | none => rw [hv] at h; simp at h
  | some b =>
    cases b with
    | false => rfl
    | true =>
      rw [hv] at h
      cases hm : (if n = 1 then singleMove s playerName fromC toC
                  else multipleMove s playerName fromC toC n) with
      | none => rw [hm] at h; simp at h
      | some s1 =>
        rw [hm] at h
        dsimp only at h
        split at h <;> simp at h

/-- C6, witness: an out-of-turn request (player 2 moving first) is
rejected and the state returned unchanged. -/
theorem c6_rejected_move_leaves_state_unchanged_witness :
    movePiece g0c nameB (0, 0) (0, 1) 1 = some (MoveResult.rejected, g0c) :=
  c6_rejected_move_leaves_state_unchanged g0c nameB (0, 0) (0, 1) 1 (by decide)

/-- `setPlayer` only touches the player fields. -/
theorem setPlayer_board (s : FocusGame) (nm : String) (p : Player) :
    (setPlayer s nm p).board = s.board := by
  unfold setPlayer
  split_ifs <;> rfl

/-- `setPlayer` does not touch the turn holder. -/
theorem setPlayer_currentTurn (s : FocusGame) (nm : String) (p : Player) :
    (setPlayer s nm p).currentTurn = s.currentTurn := by
  unfold setPlayer
  split_ifs <;> rfl

/-- Writing back a player value whose name is that of the looked-up
player leaves both player names unchanged. -/
theorem setPlayer_names (s : FocusGame) (nm : String) (pl p : Player)
    (hl : lookupPlayer s nm = some pl) (hname : p.name = pl.name) :
    (setPlayer s nm p).player1.name = s.player1.name
      ∧ (setPlayer s nm p).player2.name = s.player2.name := by
  unfold lookupPlayer at hl
  unfold setPlayer
  by_cases h2 : nm = s.player2.name
  · rw [if_pos h2] at hl ⊢
    have hpl : pl = s.player2 := by injection hl with h; exact h.symm
    refine ⟨rfl, ?_⟩
    show p.name = s.player2.name
    rw [hname, hpl]
  · rw [if_neg h2] at hl ⊢
    by_cases h1 : nm = s.player1.name
    · rw [if_pos h1] at hl ⊢
      have hpl : pl = s.player1 := by injection hl with h; exact h.symm
      refine ⟨?_, rfl⟩
      show p.name = s.player1.name
      rw [hname, hpl]
    · rw [if_neg h1] at hl
      cases hl

/-- `resolve_stacks` never changes the processed player's name or
color. -/
theorem resolveStacks_name_color (l : List String) (p : Player) :
    (resolveStacks l p).2.name = p.name ∧ (resolveStacks l p).2.color = p.color := by
  unfold resolveStacks
  dsimp only
  rw [resolveLoop_spec]
  exact ⟨rfl, rfl⟩

/-- A stack of more than five pieces resolves to exactly five pieces. -/
theorem resolveStacks_fst_length (l : List String) (p : Player) (h : 5 < l.length) :
    (resolveStacks l p).1.length = 5 := by
  unfold resolveStacks pySliceFrom
  dsimp only
  rw [if_neg (by omega : ¬ ((l.length : Int) - 5 < 0))]
  simp only [List.length_drop]
  omega

/-- A `[:k]` slice is never longer than the list. -/
theorem pySliceTo_length_le (l : List String) (k : Int) :
    (pySliceTo l k).length ≤ l.length := by
  unfold pySliceTo
  split <;> simp [List.length_take]

/-- The turn handoff, in terms of the incoming fields. -/
theorem advanceTurn_currentTurn (s : FocusGame) :
    (advanceTurn s).currentTurn
      = if s.currentTurn = s.player1.name then s.player2.name else s.player1.name := by
  unfold advanceTurn
  split_ifs <;> rfl

/-- `advanceTurn` only touches the turn holder. -/
theorem advanceTurn_board (s : FocusGame) :
    (advanceTurn s).board = s.board ∧ (advanceTurn s).player1 = s.player1
      ∧ (advanceTurn s).player2 = s.player2 := by
  unfold advanceTurn
  split_ifs <;> exact ⟨rfl, rfl, rfl⟩

/-- A successful `single_move` preserves the turn holder and the player
names. -/
theorem singleMove_preserves (s : FocusGame) (nm : String) (fromC toC : Int × Int)
    (s1 : FocusGame) (h : singleMove s nm fromC toC = some s1) :
    s1.currentTurn = s.currentTurn ∧ s1.player1.name = s.player1.name
      ∧ s1.player2.name = s.player2.name := by
  unfold singleMove at h
  cases hl : lookupPlayer s nm with
  | none => rw [hl] at h; exact Option.noConfusion h
  | some pl =>
    rw [hl] at h
    dsimp only at h
    split at h
    · injection h with h
      subst h
      exact ⟨setPlayer_currentTurn s nm _,
        setPlayer_names s nm pl _ hl (resolveStacks_name_color _ _).1⟩
    · injection h with h
      subst h
      exact ⟨rfl, rfl, rfl⟩

/-- A successful `multiple_move` preserves the turn holder and the player
names. -/
theorem multipleMove_preserves (s : FocusGame) (nm : String) (fromC toC : Int × Int)
    (n : Int) (s1 : FocusGame) (h : multipleMove s nm fromC toC n = some s1) :
    s1.currentTurn = s.currentTurn ∧ s1.player1.name = s.player1.name
      ∧ s1.player2.name = s.player2.name := by
  unfold multipleMove at h
  dsimp only at h
  split at h
  · cases hl : lookupPlayer s nm with
    | none => rw [hl] at h; exact Option.noConfusion h
    | some pl =>
      rw [hl] at h
      dsimp only at h
      injection h with h
      subst h
      exact ⟨setPlayer_currentTurn s nm _,
        setPlayer_names s nm pl _ hl (resolveStacks_name_color _ _).1⟩
  · injection h with h
    subst h
    exact ⟨rfl, rfl, rfl⟩

/-- Shape of a non-rejected `move_piece` outcome: some helper move
produced an intermediate state `s1`, the returned state is `s1` with the
turn advanced and the status recomputed, and a win outcome names the
post-advance turn holder. -/
theorem movePiece_accepted_shape (s : FocusGame) (playerName : String)
    (fromC toC : Int × Int) (n : Int) (r : MoveResult) (s2 : FocusGame)
    (h : movePiece s playerName fromC toC n = some (r, s2)) (hr : r ≠ MoveResult.rejected) :
    basicMoveValidation s playerName fromC toC n = some true
      ∧ ∃ s1, (singleMove s playerName fromC toC = some s1
            ∨ multipleMove s playerName fromC toC n = some s1)
      ∧ s2 = { advanceTurn s1 with gameState := determineGameState (advanceTurn s1) }
      ∧ (r = MoveResult.moved ∨ r = MoveResult.wins (advanceTurn s1).currentTurn) := by
  unfold movePiece at h
  cases hv : basicMoveValidation s playerName fromC toC n with
  | none => rw [hv] at h; exact Option.noConfusion h
  | some b =>
    rw [hv] at h
    cases b with
    | false =>
      dsimp only at h
      injection h with h
      rw [Prod.mk.injEq] at h
      exact absurd h.1.symm hr
    | true =>
      cases hm : (if n = 1 then singleMove s playerName fromC toC
                  else multipleMove s playerName fromC toC n) with
      | none => rw [hm] at h; exact Option.noConfusion h
      | some s1 =>
        rw [hm] at h
        dsimp only at h
        have hd : singleMove s playerName fromC toC = some s1
            ∨ multipleMove s playerName fromC toC n = some s1 := by
          by_cases h1 : n = 1
          · rw [if_pos h1] at hm; exact Or.inl hm
          · rw [if_neg h1] at hm; exact Or.inr hm
        split at h
        · injection h with h
          rw [Prod.mk.injEq] at h
          exact ⟨rfl, s1, hd, h.2.symm, Or.inr h.1.symm⟩
        · injection h with h
          rw [Prod.mk.injEq] at h
          exact ⟨rfl, s1, hd, h.2.symm, Or.inl h.1.symm⟩

/-- `modify_tile` only touches the board. -/
theorem modifyTile_currentTurn (s : FocusGame) (t : Int × Int) (v : List String) :
    (modifyTile s t v).currentTurn = s.currentTurn := rfl

/-- `modify_tile` leaves player 1 alone. -/
theorem modifyTile_player1 (s : FocusGame) (t : Int × Int) (v : List String) :
    (modifyTile s t v).player1 = s.player1 := rfl

/-- `modify_tile` leaves player 2 alone. -/
theorem modifyTile_player2 (s : FocusGame) (t : Int × Int) (v : List String) :
    (modifyTile s t v).player2 = s.player2 := rfl

/-- The board after `modify_tile` is a pointwise update. -/
theorem modifyTile_board (s : FocusGame) (t : Int × Int) (v : List String) :
    (modifyTile s t v).board = Function.update s.board (fin6 t.1, fin6 t.2) v := rfl

/-- A `move_piece` call that reports a rejection returns the incoming
state itself. -/
theorem movePiece_rejected_unchanged (s : FocusGame) (playerName : String)
    (fromC toC : Int × Int) (n : Int) (s2 : FocusGame)
    (h : movePiece s playerName fromC toC n = some (MoveResult.rejected, s2)) : s2 = s := by
  unfold movePiece at h
  cases hv : basicMoveValidation s playerName fromC toC n with
  | none => rw [hv] at h; exact Option.noConfusion h
  | some b =>
    rw [hv] at h
    cases b with
    | false =>
      dsimp only at h
      injection h with h
      rw [Prod.mk.injEq] at h
      exact h.2.symm
    | true =>
      cases hm : (if n = 1 then singleMove s playerName fromC toC
                  else multipleMove s playerName fromC toC n) with
      | none => rw [hm] at h; exact Option.noConfusion h
      | some s1 =>
        rw [hm] at h
        dsimp only at h
        split at h <;>
          (injection h with h; rw [Prod.mk.injEq] at h; exact absurd h.1 (by simp))

/-- A `reserved_move` call that reports a rejection returns the incoming
state itself. -/
theorem reservedMove_rejected_unchanged (s : FocusGame) (playerName : String)
    (toC : Int × Int) (s2 : FocusGame)
    (h : reservedMove s playerName toC = some (MoveResult.rejected, s2)) : s2 = s := by
  unfold reservedMove at h
  cases hl : lookupPlayer s playerName with
  | none => rw [hl] at h; exact Option.noConfusion h
  | some pl =>
    rw [hl] at h
    dsimp only at h
    split at h
    · injection h with h; rw [Prod.mk.injEq] at h; exact h.2.symm
    split at h
    · injection h with h; rw [Prod.mk.injEq] at h; exact h.2.symm
    split at h
    · injection h with h; rw [Prod.mk.injEq] at h; exact h.2.symm
    split at h <;> split at h <;>
      (injection h with h; rw [Prod.mk.injEq] at h; exact absurd h.1 (by simp))

/-- Shape of a non-rejected `reserved_move` outcome: the looked-up player
had their reserve decremented, the destination cell received the (maybe
resolved) stack `ns` of at most 5 pieces, the turn advanced and the
status was recomputed; a win outcome names the post-advance turn
holder. -/
theorem reservedMove_accepted_spec (s : FocusGame) (playerName : String) (toC : Int × Int)
    (r : MoveResult) (s2 : FocusGame)
    (h : reservedMove s playerName toC = some (r, s2)) (hr : r ≠ MoveResult.rejected) :
    ∃ pl ns p2,
      lookupPlayer s playerName = some pl
      ∧ p2.name = pl.name
      ∧ ns.length ≤ 5
      ∧ s2 = { advanceTurn (modifyTile (setPlayer s playerName p2) toC ns) with
               gameState :=
                 determineGameState (advanceTurn (modifyTile (setPlayer s playerName p2) toC ns)) }
      ∧ (r = MoveResult.moved
         ∨ r = MoveResult.wins
             (advanceTurn (modifyTile (setPlayer s playerName p2) toC ns)).currentTurn) := by
  unfold reservedMove at h
  cases hl : lookupPlayer s playerName with
  | none => rw [hl] at h; exact Option.noConfusion h
  | some pl =>
    rw [hl] at h
    dsimp only at h
    split at h
    · injection h with h; rw [Prod.mk.injEq] at h; exact absurd h.1.symm hr
    split at h
    · injection h with h; rw [Prod.mk.injEq] at h; exact absurd h.1.symm hr
    split at h
    · injection h with h; rw [Prod.mk.injEq] at h; exact absurd h.1.symm hr
    split at h
    · rename_i hbig
      split at h <;> (injection h with h; rw [Prod.mk.injEq] at h)
      · exact ⟨pl,
          (resolveStacks (stackAt s toC ++ [pl.color]) { pl with reserved := pl.reserved - 1 }).1,
          (resolveStacks (stackAt s toC ++ [pl.color]) { pl with reserved := pl.reserved - 1 }).2,
          rfl, (resolveStacks_name_color _ _).1,
          le_of_eq (resolveStacks_fst_length _ _ hbig), h.2.symm, Or.inr h.1.symm⟩
      · exact ⟨pl,
          (resolveStacks (stackAt s toC ++ [pl.color]) { pl with reserved := pl.reserved - 1 }).1,
          (resolveStacks (stackAt s toC ++ [pl.color]) { pl with reserved := pl.reserved - 1 }).2,
          rfl, (resolveStacks_name_color _ _).1,
          le_of_eq (resolveStacks_fst_length _ _ hbig), h.2.symm, Or.inl h.1.symm⟩
    · rename_i hsmall
      split at h <;> (injection h with h; rw [Prod.mk.injEq] at h)
      · exact ⟨pl, stackAt s toC ++ [pl.color], { pl with reserved := pl.reserved - 1 },
          rfl, rfl, by omega, h.2.symm, Or.inr h.1.symm⟩
      · exact ⟨pl, stackAt s toC ++ [pl.color], { pl with reserved := pl.reserved - 1 },
          rfl, rfl, by omega, h.2.symm, Or.inl h.1.symm⟩

/-- C5 (confirmed): after every non-rejected `move_piece` or
`reserved_move`, the turn passes unconditionally to the other player
(player 2's name if player 1 held the turn, player 1's otherwise), and
when the recomputed status is a win state the reported outcome names the
new turn holder — the player who did not just move. -/
theorem c5_turn_advance_and_winner :
    (∀ (s : FocusGame) (playerName : String) (fromC toC : Int × Int) (n : Int)
        (r : MoveResult) (s2 : FocusGame),
        movePiece s playerName fromC toC n = some (r, s2) → r ≠ MoveResult.rejected →
        (s2.currentTurn
            = (if s.currentTurn = s.player1.name then s.player2.name else s.player1.name)
          ∧ ∀ w, r = MoveResult.wins w → w = s2.currentTurn))
    ∧ (∀ (s : FocusGame) (playerName : String) (toC : Int × Int)
        (r : MoveResult) (s2 : FocusGame),
        reservedMove s playerName toC = some (r, s2) → r ≠ MoveResult.rejected →
        (s2.currentTurn
            = (if s.currentTurn = s.player1.name then s.player2.name else s.player1.name)
          ∧ ∀ w, r = MoveResult.wins w → w = s2.currentTurn)) := by
  constructor
  · intro s playerName fromC toC n r s2 h hr
    obtain ⟨-, s1, hd, hs2, hres⟩ := movePiece_accepted_shape s playerName fromC toC n r s2 h hr
    have hpres : s1.currentTurn = s.currentTurn ∧ s1.player1.name = s.player1.name
        ∧ s1.player2.name = s.player2.name := by
      rcases hd with hd | hd
      · exact singleMove_preserves s playerName fromC toC s1 hd
      · exact multipleMove_preserves s playerName fromC toC n s1 hd
    obtain ⟨hp1, hp2, hp3⟩ := hpres
    have hct : s2.currentTurn
        = if s.currentTurn = s.player1.name then s.player2.name else s.player1.name := by
      rw [hs2]
      show (advanceTurn s1).currentTurn = _
      rw [advanceTurn_currentTurn, hp1, hp2, hp3]
    refine ⟨hct, ?_⟩
    intro w hw
    rcases hres with hres | hres
    · rw [hres] at hw; exact MoveResult.noConfusion hw
    · rw [hres] at hw
      injection hw with hw
      rw [← hw, hs2]
  · intro s playerName toC r s2 h hr
    obtain ⟨pl, ns, p2, hl, hname, hlen, hs2, hres⟩ :=
      reservedMove_accepted_spec s playerName toC r s2 h hr
    obtain ⟨hn1, hn2⟩ := setPlayer_names s playerName pl p2 hl hname
    have hct : s2.currentTurn
        = if s.currentTurn = s.player1.name then s.player2.name else s.player1.name := by
      rw [hs2]
      show (advanceTurn (modifyTile (setPlayer s playerName p2) toC ns)).currentTurn = _
      rw [advanceTurn_currentTurn, modifyTile_currentTurn, modifyTile_player1,
        modifyTile_player2, setPlayer_currentTurn, hn1, hn2]
    refine ⟨hct, ?_⟩
    intro w hw
    rcases hres with hres | hres
    · rw [hres] at hw; exact MoveResult.noConfusion hw
    · rw [hres] at hw
      injection hw with hw
      rw [← hw, hs2]

/-- C5, witness: player 1's opening single move hands the turn to player
2. -/
theorem c5_turn_advance_and_winner_witness :
    (movePiece g0c nameA (0, 0) (1, 0) 1).map (fun p => p.2.currentTurn) = some nameB := by
  cases hEq : movePiece g0c nameA (0, 0) (1, 0) 1 with
  | none =>
    have hs : (movePiece g0c nameA (0, 0) (1, 0) 1).isSome = true := rfl
    rw [hEq] at hs
    cases hs
  | some p =>
    have h1 : p.1 = MoveResult.moved := by
      have hf : (movePiece g0c nameA (0, 0) (1, 0) 1).map Prod.fst
          = some MoveResult.moved := by decide
      rw [hEq] at hf
      injection hf
    have h2 := (c5_turn_advance_and_winner.1 g0c nameA (0, 0) (1, 0) 1 p.1 p.2
      (by rw [← hEq]) (by rw [h1]; simp)).1
    have h3 : Option.map (fun q : MoveResult × FocusGame => q.2.currentTurn) (some p)
        = some (p.2.currentTurn) := rfl
    exact h3.trans (congrArg some (h2.trans (by decide)))

/-- C7 (confirmed): once the earlier validation checks pass, the request
is accepted exactly when `|to.row - from.row| = number_of_pieces` or
`|to.col - from.col| = number_of_pieces`; nothing requires the other
axis's delta to be zero — the source's own diagonal guard compares
`to_coordinates[1]` with itself and never fires — so a request with both
deltas nonzero is accepted whenever one of them equals the piece count
(see the witness, a diagonal move from (0,0) to (1,1)). -/
theorem c7_geometry_disjunction (s : FocusGame) (playerName : String)
    (fromC toC : Int × Int) (n : Int) (pl : Player)
    (hb : (coordOnBoard fromC.1 && coordOnBoard fromC.2
           && coordOnBoard toC.1 && coordOnBoard toC.2) = true)
    (hg : s.gameState = inProgressMsg)
    (ht : playerName = s.currentTurn)
    (hne : (stackAt s fromC).length ≠ 0)
    (hl : lookupPlayer s playerName = some pl)
    (htop : (stackAt s fromC).getLast? = some pl.color)
    (hn0 : 0 ≤ n) (hnl : n ≤ ((stackAt s fromC).length : Int)) :
    basicMoveValidation s playerName fromC toC n = some true
      ↔ (((toC.1 - fromC.1).natAbs : Int) = n ∨ ((toC.2 - fromC.2).natAbs : Int) = n) := by
  unfold basicMoveValidation
  rw [if_neg (by simp [hb]), if_neg (by simp [hg, inProgressMsg]),
    if_neg (by simp [ht]), if_neg (by simp [hne]), if_neg hne, hl]
  dsimp only
  rw [if_neg (by simp [htop]), if_neg (by omega)]
  by_cases hgeom : ((toC.1 - fromC.1).natAbs : Int) = n ∨ ((toC.2 - fromC.2).natAbs : Int) = n
  · rw [if_neg (by tauto), if_neg (by simp)]
    exact iff_of_true rfl hgeom
  · rw [if_pos (by tauto)]
    exact iff_of_false (by simp) hgeom

/-- C7, witness: the diagonal request from (0,0) to (1,1) moving one
piece passes validation in a fresh game, because `|delta row| = 1`
matches the piece count even though the column also changes. -/
theorem c7_geometry_disjunction_witness :
    basicMoveValidation g0c nameA (0, 0) (1, 1) 1 = some true :=
  (c7_geometry_disjunction g0c nameA (0, 0) (1, 1) 1 ⟨nameA, colR, 0, 0⟩
    (by decide) (by decide) (by decide) (by decide) (by decide) (by decide)
    (by decide) (by decide)).mpr (Or.inl (by decide))

/-- Updating two cells with stacks of at most 5 preserves the bound. -/
theorem stacksLE5_two_update (b : Fin 6 × Fin 6 → List String) (p q : Fin 6 × Fin 6)
    (old new : List String) (hb : ∀ c, (b c).length ≤ 5)
    (ho : old.length ≤ 5) (hn : new.length ≤ 5) (c : Fin 6 × Fin 6) :
    ((Function.update (Function.update b p old) q new) c).length ≤ 5 := by
  by_cases hq : c = q
  · rw [hq, Function.update_same]
    exact hn
  · rw [Function.update_noteq hq]
    by_cases hp : c = p
    · rw [hp, Function.update_same]
      exact ho
    · rw [Function.update_noteq hp]
      exact hb c

/-- A successful `single_move` keeps every stack at 5 pieces or fewer. -/
theorem singleMove_stacksLE5 (s : FocusGame) (nm : String) (fromC toC : Int × Int)
    (s1 : FocusGame) (h : singleMove s nm fromC toC = some s1) (hs : StacksLE5 s) :
    StacksLE5 s1 := by
  unfold singleMove at h
  cases hl : lookupPlayer s nm with
  | none => rw [hl] at h; exact Option.noConfusion h
  | some pl =>
    rw [hl] at h
    dsimp only at h
    split at h
    · rename_i hbig
      injection h with h
      subst h
      intro c
      rw [modifyTile_board, modifyTile_board, setPlayer_board]
      exact stacksLE5_two_update _ _ _ _ _ hs
        (le_trans (pySliceTo_length_le _ _) (hs _))
        (le_of_eq (resolveStacks_fst_length _ _ hbig)) c
    · rename_i hsmall
      injection h with h
      subst h
      intro c
      rw [modifyTile_board, modifyTile_board]
      exact stacksLE5_two_update _ _ _ _ _ hs
        (le_trans (pySliceTo_length_le _ _) (hs _)) (by omega) c

/-- A successful `multiple_move` keeps every stack at 5 pieces or
fewer. -/
theorem multipleMove_stacksLE5 (s : FocusGame) (nm : String) (fromC toC : Int × Int)
    (n : Int) (s1 : FocusGame) (h : multipleMove s nm fromC toC n = some s1)
    (hs : StacksLE5 s) : StacksLE5 s1 := by
  unfold multipleMove at h
  dsimp only at h
  split at h
  · rename_i hbig
    cases hl : lookupPlayer s nm with
    | none => rw [hl] at h; exact Option.noConfusion h
    | some pl =>
      rw [hl] at h
      dsimp only at h
      injection h with h
      subst h
      intro c
      rw [modifyTile_board, modifyTile_board, setPlayer_board]
      exact stacksLE5_two_update _ _ _ _ _ hs
        (le_trans (pySliceTo_length_le _ _) (hs _))
        (le_of_eq (resolveStacks_fst_length _ _ hbig)) c
  · rename_i hsmall
    injection h with h
    subst h
    intro c
    rw [modifyTile_board, modifyTile_board]
    exact stacksLE5_two_update _ _ _ _ _ hs
      (le_trans (pySliceTo_length_le _ _) (hs _)) (by omega) c

/-- Every cell of a fresh board holds exactly one piece. -/
theorem initBoard_length (c1 c2 : String) (rc : Fin 6 × Fin 6) :
    (initBoard c1 c2 rc).length = 1 := by
  obtain ⟨r, c⟩ := rc
  unfold initBoard
  fin_cases r <;> fin_cases c <;> rfl

/-- C10 (confirmed): the implicit at-most-5 invariant — a fresh game has
only single-piece stacks, and both `move_piece` and `reserved_move` keep
every one of the 36 cells at 5 pieces or fewer (any stack driven above 5
inside the operation is trimmed to its top 5 by `resolve_stacks` before
the tiles are written back). -/
theorem c10_stacks_at_most_five :
    (∀ p1 p2 : String × String, StacksLE5 (mkGame p1 p2))
    ∧ (∀ (s : FocusGame) (playerName : String) (fromC toC : Int × Int) (n : Int)
        (r : MoveResult) (s2 : FocusGame), StacksLE5 s →
        movePiece s playerName fromC toC n = some (r, s2) → StacksLE5 s2)
    ∧ (∀ (s : FocusGame) (playerName : String) (toC : Int × Int)
        (r : MoveResult) (s2 : FocusGame), StacksLE5 s →
        reservedMove s playerName toC = some (r, s2) → StacksLE5 s2) := by
  refine ⟨?_, ?_, ?_⟩
  · intro p1 p2 c
    show (initBoard p1.2 p2.2 c).length ≤ 5
    rw [initBoard_length]
    omega
  · intro s playerName fromC toC n r s2 hs h
    by_cases hr : r = MoveResult.rejected
    · subst hr
      rw [movePiece_rejected_unchanged s playerName fromC toC n s2 h]
      exact hs
    · obtain ⟨-, s1, hd, hs2, -⟩ := movePiece_accepted_shape s playerName fromC toC n r s2 h hr
      have hs1 : StacksLE5 s1 := by
        rcases hd with hd | hd
        · exact singleMove_stacksLE5 s playerName fromC toC s1 hd hs
        · exact multipleMove_stacksLE5 s playerName fromC toC n s1 hd hs
      intro c
      rw [hs2]
      show ((advanceTurn s1).board c).length ≤ 5
      rw [(advanceTurn_board s1).1]
      exact hs1 c
  · intro s playerName toC r s2 hs h
    by_cases hr : r = MoveResult.rejected
    · subst hr
      rw [reservedMove_rejected_unchanged s playerName toC s2 h]
      exact hs
    · obtain ⟨pl, ns, p2, hl, hname, hlen, hs2, -⟩ :=
        reservedMove_accepted_spec s playerName toC r s2 h hr
      intro c
      rw [hs2]
      show ((advanceTurn (modifyTile (setPlayer s playerName p2) toC ns)).board c).length ≤ 5
      rw [(advanceTurn_board _).1, modifyTile_board, setPlayer_board]
      by_cases hc : c = (fin6 toC.1, fin6 toC.2)
      · rw [hc, Function.update_same]
        exact hlen
      · rw [Function.update_noteq hc]
        exact hs c

/-- C10, witness: the invariant holds concretely after player 1's
opening move. -/
theorem c10_stacks_at_most_five_witness :
    StacksLE5 (((movePiece g0c nameA (0, 0) (1, 0) 1).getD (MoveResult.rejected, g0c)).2) := by
  cases hEq : movePiece g0c nameA (0, 0) (1, 0) 1 with
  | none =>
    intro c
    revert c
    decide
  | some p =>
    exact c10_stacks_at_most_five.2.1 g0c nameA (0, 0) (1, 0) 1 p.1 p.2
      (by intro c; revert c; decide) (by rw [← hEq])

/-- Facts recorded by a validation that returned `True`: all coordinates
in bounds, nonempty source, piece count in [0, stack size], and the
geometry disjunction. -/
theorem validation_true_spec (s : FocusGame) (playerName : String) (fromC toC : Int × Int)
    (n : Int) (h : basicMoveValidation s playerName fromC toC n = some true) :
    (0 ≤ fromC.1 ∧ fromC.1 ≤ 5) ∧ (0 ≤ fromC.2 ∧ fromC.2 ≤ 5)
      ∧ (0 ≤ toC.1 ∧ toC.1 ≤ 5) ∧ (0 ≤ toC.2 ∧ toC.2 ≤ 5)
      ∧ (stackAt s fromC).length ≠ 0
      ∧ (0 ≤ n ∧ n ≤ ((stackAt s fromC).length : Int))
      ∧ (((toC.1 - fromC.1).natAbs : Int) = n ∨ ((toC.2 - fromC.2).natAbs : Int) = n) := by
  unfold basicMoveValidation at h
  split at h
  · exact absurd h (by simp)
  split at h
  · exact absurd h (by simp)
  split at h
  · exact absurd h (by simp)
  split at h
  · exact absurd h (by simp)
  split at h
  · exact absurd h (by simp)
  rename_i hb hgs hturn hn1 hlen
  cases hl : lookupPlayer s playerName with
  | none => rw [hl] at h; exact Option.noConfusion h
  | some pl =>
    rw [hl] at h
    dsimp only at h
    split at h
    · exact absurd h (by simp)
    split at h
    · exact absurd h (by simp)
    split at h
    · exact absurd h (by simp)
    rename_i htop hcnt hgeom
    have hb2 : (coordOnBoard fromC.1 && coordOnBoard fromC.2
        && coordOnBoard toC.1 && coordOnBoard toC.2) = true := not_not.mp hb
    simp only [Bool.and_eq_true, coordOnBoard, decide_eq_true_eq] at hb2
    exact ⟨hb2.1.1.1, hb2.1.1.2, hb2.1.2, hb2.2, hlen, by omega, by tauto⟩

/-- `fin6` is injective on in-bounds coordinates. -/
theorem fin6_inj (x y : Int) (hx0 : 0 ≤ x) (hx5 : x ≤ 5) (hy0 : 0 ≤ y) (hy5 : y ≤ 5)
    (h : fin6 x = fin6 y) : x = y := by
  unfold fin6 at h
  rw [Fin.mk.injEq] at h
  omega

/-- Two validated coordinates differing on some axis name distinct board
cells. -/
theorem move_cells_distinct (fromC toC : Int × Int)
    (h1 : 0 ≤ fromC.1 ∧ fromC.1 ≤ 5) (h2 : 0 ≤ fromC.2 ∧ fromC.2 ≤ 5)
    (h3 : 0 ≤ toC.1 ∧ toC.1 ≤ 5) (h4 : 0 ≤ toC.2 ∧ toC.2 ≤ 5)
    (hne : fromC.1 ≠ toC.1 ∨ fromC.2 ≠ toC.2) :
    (fin6 fromC.1, fin6 fromC.2) ≠ (fin6 toC.1, fin6 toC.2) := by
  intro he
  rw [Prod.mk.injEq] at he
  rcases hne with hne | hne
  · exact hne (fin6_inj _ _ h1.1 h1.2 h3.1 h3.2 he.1)
  · exact hne (fin6_inj _ _ h2.1 h2.2 h4.1 h4.2 he.2)

/-- Updating two distinct cells while keeping the summed stack sizes
equal keeps the board total. -/
theorem sum_two_update (b : Fin 6 × Fin 6 → List String) (p q : Fin 6 × Fin 6)
    (old new : List String) (hpq : p ≠ q)
    (hlen : old.length + new.length = (b p).length + (b q).length) :
    (∑ c : Fin 6 × Fin 6, ((Function.update (Function.update b p old) q new) c).length)
      = ∑ c : Fin 6 × Fin 6, (b c).length := by
  have pointwise : ∀ c, ((Function.update (Function.update b p old) q new) c).length
      = Function.update (Function.update (fun c => (b c).length) p old.length) q new.length c := by
    intro c
    by_cases hq : c = q
    · rw [hq, Function.update_same, Function.update_same]
    · rw [Function.update_noteq hq, Function.update_noteq hq]
      by_cases hp : c = p
      · rw [hp, Function.update_same, Function.update_same]
      · rw [Function.update_noteq hp, Function.update_noteq hp]
  rw [Finset.sum_congr rfl (fun c _ => pointwise c),
    Finset.sum_update_of_mem (Finset.mem_univ q), Finset.sdiff_singleton_eq_erase,
    Finset.sum_update_of_mem (Finset.mem_erase.mpr ⟨hpq, Finset.mem_univ p⟩),
    Finset.sdiff_singleton_eq_erase,
    ← Finset.add_sum_erase _ (fun c => (b c).length) (Finset.mem_univ q),
    ← Finset.add_sum_erase _ (fun c => (b c).length)
        (Finset.mem_erase.mpr ⟨hpq, Finset.mem_univ p⟩)]
  omega

/-- Exact length of an in-range `[:k]` slice. -/
theorem pySliceTo_length_exact (l : List String) (k : Int) (h0 : 0 ≤ k)
    (hk : k ≤ (l.length : Int)) : ((pySliceTo l k).length : Int) = k := by
  unfold pySliceTo
  rw [if_neg (by omega)]
  simp only [List.length_take]
  omega

/-- Exact length of the `[-n:]` slice for `1 ≤ n ≤ length`. -/
theorem pySliceFrom_neg_length (l : List String) (n : Int) (h1 : 1 ≤ n)
    (hn : n ≤ (l.length : Int)) : ((pySliceFrom l (-n)).length : Int) = n := by
  unfold pySliceFrom
  rw [if_pos (by omega)]
  simp only [List.length_drop, Int.natAbs_neg]
  omega

/-- A successful `single_move` to a distinct destination that does not
overflow conserves the total piece count. -/
theorem singleMove_total (s : FocusGame) (nm : String) (fromC toC : Int × Int)
    (s1 : FocusGame) (h : singleMove s nm fromC toC = some s1)
    (hcells : (fin6 fromC.1, fin6 fromC.2) ≠ (fin6 toC.1, fin6 toC.2))
    (hne0 : (stackAt s fromC).length ≠ 0)
    (hroom : (stackAt s toC).length + 1 ≤ 5) :
    totalPieces s1 = totalPieces s := by
  unfold singleMove at h
  cases hl : lookupPlayer s nm with
  | none => rw [hl] at h; exact Option.noConfusion h
  | some pl =>
    rw [hl] at h
    dsimp only at h
    split at h
    · rename_i hbig
      exfalso
      rw [List.length_append] at hbig
      simp only [List.length_singleton] at hbig
      omega
    · injection h with h
      subst h
      have hold : ((pySliceTo (stackAt s fromC) (((stackAt s fromC).length : Int) - 1)).length : Int)
          = ((stackAt s fromC).length : Int) - 1 :=
        pySliceTo_length_exact _ _ (by omega) (by omega)
      have hlen2 : (pySliceTo (stackAt s fromC) (((stackAt s fromC).length : Int) - 1)).length
          + (stackAt s toC ++ [pl.color]).length
          = (s.board (fin6 fromC.1, fin6 fromC.2)).length
            + (s.board (fin6 toC.1, fin6 toC.2)).length := by
        simp only [stackAt] at hold hne0 ⊢
        simp only [List.length_append, List.length_singleton]
        omega
      unfold totalPieces
      simp only [modifyTile_player1, modifyTile_player2, modifyTile_board, setPlayer_board]
      rw [sum_two_update s.board _ _ _ _ hcells hlen2]

/-- A successful `multiple_move` of `1 ≤ n ≤ source size` pieces to a
distinct destination that does not overflow conserves the total piece
count. -/
theorem multipleMove_total (s : FocusGame) (nm : String) (fromC toC : Int × Int) (n : Int)
    (s1 : FocusGame) (h : multipleMove s nm fromC toC n = some s1)
    (hcells : (fin6 fromC.1, fin6 fromC.2) ≠ (fin6 toC.1, fin6 toC.2))
    (hn : 1 ≤ n) (hnl : n ≤ ((stackAt s fromC).length : Int))
    (hroom : (stackAt s toC).length + n.toNat ≤ 5) :
    totalPieces s1 = totalPieces s := by
  unfold multipleMove at h
  dsimp only at h
  have hpieces : ((pySliceFrom (stackAt s fromC) (-n)).length : Int) = n :=
    pySliceFrom_neg_length _ _ hn hnl
  split at h
  · rename_i hbig
    exfalso
    rw [List.length_append] at hbig
    omega
  · injection h with h
    subst h
    have hold : ((pySliceTo (stackAt s fromC) (((stackAt s fromC).length : Int) - n)).length : Int)
        = ((stackAt s fromC).length : Int) - n :=
      pySliceTo_length_exact _ _ (by omega) (by omega)
    have hlen2 : (pySliceTo (stackAt s fromC) (((stackAt s fromC).length : Int) - n)).length
        + (stackAt s toC ++ pySliceFrom (stackAt s fromC) (-n)).length
        = (s.board (fin6 fromC.1, fin6 fromC.2)).length
          + (s.board (fin6 toC.1, fin6 toC.2)).length := by
      simp only [stackAt] at hold hpieces ⊢
      simp only [List.length_append]
      omega
    unfold totalPieces
    simp only [modifyTile_player1, modifyTile_player2, modifyTile_board]
    rw [sum_two_update s.board _ _ _ _ hcells hlen2]

/-- Conservation step: any `move_piece` call asking for at least one
piece whose destination has room (no overflow) keeps the total piece
count — rejected calls keep the state itself. -/
theorem totalPieces_step (s : FocusGame) (playerName : String) (fromC toC : Int × Int)
    (n : Int) (r : MoveResult) (s2 : FocusGame)
    (h : movePiece s playerName fromC toC n = some (r, s2))
    (hn : 1 ≤ n) (hroom : (stackAt s toC).length + n.toNat ≤ 5) :
    totalPieces s2 = totalPieces s := by
  by_cases hr : r = MoveResult.rejected
  · subst hr
    rw [movePiece_rejected_unchanged s playerName fromC toC n s2 h]
  · obtain ⟨hv, s1, hd, hs2, -⟩ := movePiece_accepted_shape s playerName fromC toC n r s2 h hr
    obtain ⟨h1, h2, h3, h4, hne0, ⟨hn0, hnl⟩, hgeom⟩ := validation_true_spec _ _ _ _ _ hv
    have hcells : (fin6 fromC.1, fin6 fromC.2) ≠ (fin6 toC.1, fin6 toC.2) := by
      apply move_cells_distinct fromC toC h1 h2 h3 h4
      rcases hgeom with hg | hg
      · left; intro he; rw [he] at hg; omega
      · right; intro he; rw [he] at hg; omega
    have ht2 : totalPieces s2 = totalPieces s1 := by
      rw [hs2]
      unfold totalPieces
      obtain ⟨hbd, hpp1, hpp2⟩ := advanceTurn_board s1
      dsimp only
      rw [hbd, hpp1, hpp2]
    have ht1 : totalPieces s1 = totalPieces s := by
      rcases hd with hd | hd
      · exact singleMove_total s playerName fromC toC s1 hd hcells hne0 (by omega)
      · exact multipleMove_total s playerName fromC toC n s1 hd hcells hn hnl hroom
    rw [ht2, ht1]

/-- A fresh game holds 36 pieces in total. -/
theorem totalPieces_mkGame (p1 p2 : String × String) : totalPieces (mkGame p1 p2) = 36 := by
  unfold totalPieces mkGame
  dsimp only
  rw [Finset.sum_congr rfl (fun c _ => initBoard_length p1.2 p2.2 c)]
  simp [Finset.card_univ]

/-- Conservation along a whole trace of conserving moves. -/
theorem applyMoves_conserving (ms : List MoveArgs) :
    ∀ (s s2 : FocusGame), ConservingSeq s ms → applyMoves s ms = some s2 →
      totalPieces s2 = totalPieces s := by
  induction ms with
  | nil =>
    intro s s2 _ happ
    unfold applyMoves at happ
    injection happ with happ
    rw [happ]
  | cons m ms ih =>
    intro s s2 hseq happ
    obtain ⟨h1, h2, h3⟩ := hseq
    unfold applyMoves at happ
    cases hm : movePiece s m.player m.fromC m.toC m.n with
    | none => rw [hm] at happ; exact Option.noConfusion happ
    | some r =>
      rw [hm] at happ
      have hstep := totalPieces_step s m.player m.fromC m.toC m.n r.1 r.2
        (by rw [hm]) h1 h2
      rw [ih r.2 s2 (h3 r hm) happ, hstep]

/-- C3 (corrected), amended: the conservation claim holds once the moves
are additionally required to ask for at least one piece.  For every
sequence of `move_piece` calls in which each move has
`number_of_pieces ≥ 1` and never lands more pieces on a destination than
fit in a stack of 5 (so `resolve_stacks` is never triggered), the total
piece count — 36 stack sizes plus both reserves plus both captures —
stays exactly 36.  The restriction is forced by the counterexample: an
accepted `number_of_pieces = 0` move copies the source stack without
removing it and raises the total to 37 with no overflow involved. -/
theorem c3_conservation_positive_count (p1 p2 : String × String) (ms : List MoveArgs)
    (s2 : FocusGame) (hseq : ConservingSeq (mkGame p1 p2) ms)
    (happ : applyMoves (mkGame p1 p2) ms = some s2) :
    totalPieces s2 = 36 :=
  (applyMoves_conserving ms (mkGame p1 p2) s2 hseq happ).trans (totalPieces_mkGame p1 p2)

/-- C3, witness: after player 1's opening single move (one piece, no
overflow) the total is still 36. -/
theorem c3_conservation_positive_count_witness :
    (applyMoves g0c msOneMove).map totalPieces = some 36 := by
  cases hEq : applyMoves g0c msOneMove with
  | none =>
    have hs : (applyMoves g0c msOneMove).isSome = true := rfl
    rw [hEq] at hs
    cases hs
  | some s2 =>
    have hseq : ConservingSeq g0c msOneMove := ⟨by decide, by decide, fun r hm => trivial⟩
    exact congrArg some
      (c3_conservation_positive_count (nameA, colR) (nameB, colG) msOneMove s2 hseq hEq)
